import Mathlib

/-!
Shallow embedding of the foodsnap-tutor application (App.tsx and
services/geminiService.ts) and proofs of the spec claims about it.

Conventions of the embedding:
* JavaScript strings are `String` (for user-facing messages) or `List Char`
  (inside the data-URL parsing of `fileToPart`, where character-level surgery
  is performed by the source).
* JavaScript values produced by `JSON.parse` are modelled by the inductive
  `Json`; `JSON.parse` itself is a trusted browser builtin, so an upstream
  body is modelled as the outcome of that parse: `Option Json`, `none`
  meaning the body text was not valid JSON.
* The React component's five `useState` fields are the fields of `AppState`;
  effects and handlers are steps of an executable transition function `step`.
-/

namespace FoodSnap

/-- JavaScript value resulting from a successful `JSON.parse`. Objects are
association lists; the first binding of a key wins on lookup. -/
inductive Json where
  | null : Json
  | bool : Bool → Json
  | num : Int → Json
  | str : String → Json
  | arr : List Json → Json
  | obj : List (String × Json) → Json
deriving Repr

/-- JavaScript truthiness of a value: `null`, `false`, `0`, and the empty
string are falsy; arrays and objects are truthy. -/
def Json.truthy : Json → Bool
  | .null => false
  | .bool b => b
  | .num n => n != 0
  | .str s => s != ""
  | .arr _ => true
  | .obj _ => true

/-- JavaScript property access `j.k`: `none` models `undefined` (absent field
or access on a non-object). -/
def Json.getField : Json → String → Option Json
  | .obj fields, k => fields.lookup k
  | _, _ => none

/-- Truthiness of the JavaScript expression `j.k` (an absent field is
`undefined`, which is falsy). -/
def jsFieldTruthy (j : Json) (k : String) : Bool :=
  match j.getField k with
  | some v => v.truthy
  | none => false

/-- Browser `File` object: the fields the application reads (`name`, `type`,
and the underlying bytes). -/
structure File where
  name : String
  type : List Char
  bytes : List Nat
deriving Repr, DecidableEq

/-- Character of the standard base64 alphabet at index `n` (for `n < 64`). -/
def b64Char (n : Nat) : Char :=
  if n < 26 then Char.ofNat (65 + n)
  else if n < 52 then Char.ofNat (97 + (n - 26))
  else if n < 62 then Char.ofNat (48 + (n - 52))
  else if n = 62 then '+'
  else '/'

/-- Index of a base64 alphabet character (64 for a character outside the
alphabet, e.g. the padding sign). -/
def b64Index (c : Char) : Nat :=
  if 65 ≤ c.toNat ∧ c.toNat ≤ 90 then c.toNat - 65
  else if 97 ≤ c.toNat ∧ c.toNat ≤ 122 then c.toNat - 97 + 26
  else if 48 ≤ c.toNat ∧ c.toNat ≤ 57 then c.toNat - 48 + 52
  else if c = '+' then 62
  else if c = '/' then 63
  else 64

/-- Standard base64 encoding of a byte sequence, with padding, as produced by
the browser when forming a `data:` URL. -/
def base64Encode : List Nat → List Char
  | [] => []
  | [a] => [b64Char (a / 4), b64Char (a % 4 * 16), '=', '=']
  | [a, b] => [b64Char (a / 4), b64Char (a % 4 * 16 + b / 16), b64Char (b % 16 * 4), '=']
  | a :: b :: c :: rest =>
      b64Char (a / 4) :: b64Char (a % 4 * 16 + b / 16) ::
      b64Char (b % 16 * 4 + c / 64) :: b64Char (c % 64) :: base64Encode rest

/-- Standard base64 decoding, inverse of `base64Encode` on well-formed input. -/
def base64Decode : List Char → List Nat
  | c1 :: c2 :: c3 :: c4 :: rest =>
      if c3 = '=' then [b64Index c1 * 4 + b64Index c2 / 16]
      else if c4 = '=' then
        [b64Index c1 * 4 + b64Index c2 / 16, b64Index c2 % 16 * 16 + b64Index c3 / 4]
      else
        (b64Index c1 * 4 + b64Index c2 / 16) ::
        (b64Index c2 % 16 * 16 + b64Index c3 / 4) ::
        (b64Index c3 % 4 * 64 + b64Index c4) :: base64Decode rest
  | _ => []

/-- Modelled from the spec: the browser `FileReader.readAsDataURL` result for
a file (an external browser API, not repository code): the string
`data:<declared mime type>;base64,<base64 payload of the bytes>`. -/
def readAsDataURL (f : File) : List Char :=
  'd' :: 'a' :: 't' :: 'a' :: ':' ::
    (f.type ++ (';' :: 'b' :: 'a' :: 's' :: 'e' :: '6' :: '4' :: ',' :: base64Encode f.bytes))

/-- JavaScript `String.prototype.split(',')` on a character list: splits at
every comma. -/
def splitComma : List Char → List (List Char)
  | [] => [[]]
  | c :: rest =>
      if c = ',' then [] :: splitComma rest
      else
        match splitComma rest with
        | [] => [[c]]
        | h :: t => (c :: h) :: t

/-- Semantics of the lazy regular expression match `/:(.*?);/.exec(s)` used by
`fileToPart`: the captured group is the text between the first colon that is
followed (anywhere later) by a semicolon and the first semicolon after it;
`none` when the pattern does not match. -/
def regexMimeMatch (s : List Char) : Option (List Char) :=
  match s.dropWhile (fun c => c ≠ ':') with
  | [] => none
  | _ :: rest =>
      if rest.any (fun c => c = ';') then some (rest.takeWhile (fun c => c ≠ ';')) else none

/-- Payload shape returned by `fileToPart` (the `inlineData` object). -/
structure InlineData where
  mimeType : List Char
  data : List Char
deriving Repr, DecidableEq

/-- Embedding of `fileToPart` (services/geminiService.ts): read the file as a
data URL, split on commas, extract the mime type with `/:(.*?);/` from the
part before the first comma and take the part after it as the payload.
Thrown `Error`s are modelled as `Except.error` carrying the message. -/
def fileToPart (f : File) : Except String InlineData :=
  match splitComma (readAsDataURL f) with
  | a0 :: a1 :: _ =>
      (match regexMimeMatch a0 with
       | none => Except.error "Could not parse MIME type from data URL"
       | some mime =>
           if mime.isEmpty then Except.error "Could not parse MIME type from data URL"
           else Except.ok { mimeType := mime, data := a1 })
  | _ => Except.error "Invalid data URL"

/-- Upstream response as the application observes it: an optional block
reason (`response.promptFeedback?.blockReason`) and the outcome of
`JSON.parse(response.text.trim())` (`none` when the text is not valid JSON). -/
structure UpstreamResponse where
  blockReason : Option String
  body : Option Json
deriving Repr

/-- Failure of `analyzeFoodImage`, one constructor per `throw` site, carrying
the thrown `Error`'s message. -/
inductive AnalyzeError where
  | blocked : String → AnalyzeError
  | malformed : String → AnalyzeError
deriving Repr

/-- Human-readable message of an `AnalyzeError` (the `Error.message` field). -/
def AnalyzeError.message : AnalyzeError → String
  | .blocked m => m
  | .malformed m => m

/-- Message thrown on the block-reason path of `analyzeFoodImage`. -/
def blockedMessage (reason : String) : String :=
  "Request was blocked due to: " ++ reason ++ ". This may be due to safety settings."

/-- Message thrown on the JSON-parse-failure path of `analyzeFoodImage`. -/
def malformedMessage : String :=
  "The AI returned an invalid response. Please try again with a clearer image."

/-- Embedding of `analyzeFoodImage` (services/geminiService.ts), response
handling part: first the block-reason check, then the JSON parse; a
successfully parsed body is returned as-is (`parsedJson as FoodAnalysis` is a
compile-time cast performing no runtime validation). -/
def analyzeFoodImage (resp : UpstreamResponse) : Except AnalyzeError Json :=
  match resp.blockReason with
  | some reason => Except.error (.blocked (blockedMessage reason))
  | none =>
      match resp.body with
      | some j => Except.ok j
      | none => Except.error (.malformed malformedMessage)

/-- State of the `App` component: the five `useState` fields of App.tsx,
plus bookkeeping that makes the model executable: the set of in-flight
analysis calls (promise continuations not yet resolved), fresh-id counters
for calls and object URLs, and the list of object URLs revoked so far.
`analysis` holds the JavaScript value (initially `null`). Object URLs are
numbered consecutively by `URL.createObjectURL`. -/
structure AppState where
  imageFile : Option File
  analysis : Json
  isLoading : Bool
  error : Option String
  imageUrl : Option Nat
  pending : List (Nat × File)
  nextCall : Nat
  nextUrl : Nat
  revoked : List Nat
deriving Repr

/-- Initial component state: all five fields null/false, nothing in flight. -/
def initState : AppState :=
  { imageFile := none, analysis := Json.null, isLoading := false, error := none,
    imageUrl := none, pending := [], nextCall := 0, nextUrl := 0, revoked := [] }

/-- Events driving the component: `selectFiles` is a call of
`handleFileSelect` with a possibly-null `FileList`; `reset` is
`handleReset`; `retry` is a click of the Try Again button; `resolve id resp`
is the resolution of in-flight analysis call `id` with upstream response
`resp`; `unmount` is component teardown. -/
inductive Event where
  | selectFiles : Option (List File) → Event
  | reset : Event
  | retry : Event
  | resolve : Nat → UpstreamResponse → Event
  | unmount : Event

/-- Revocation list after the cleanup of the previous `useEffect` run: if
that run had a non-null `imageFile` it created an object URL (recorded in
`imageUrl`) and its cleanup closure revokes exactly that URL; otherwise the
effect returned early and installed no cleanup. -/
def cleanupRevoked (s : AppState) : List Nat :=
  match s.imageFile, s.imageUrl with
  | some _, some u => u :: s.revoked
  | _, _ => s.revoked

/-- State after running the cleanup of the previous `useEffect` run; only the
revocation record changes. -/
def cleanupEffect (s : AppState) : AppState :=
  { s with revoked := cleanupRevoked s }

/-- Body of the `useEffect` for a newly set non-null image file `f`: create
and store a fresh object URL, then (synchronous prefix of `performAnalysis`)
set loading, clear error and analysis, and start the analysis call, which
becomes in-flight. -/
def effectBody (f : File) (s : AppState) : AppState :=
  { s with imageUrl := some s.nextUrl,
           nextUrl := s.nextUrl + 1,
           isLoading := true,
           error := none,
           analysis := Json.null,
           pending := s.pending ++ [(s.nextCall, f)],
           nextCall := s.nextCall + 1 }

/-- One step of the component. Each user event performs its handler's state
writes, then the cleanup of the previous effect, then the new effect body
(which only runs when the new `imageFile` is non-null) — the React commit
order. `resolve` runs the continuation of an in-flight call: the `try`
branch stores the result, the `catch` branch stores the error message, the
`finally` clears the loading flag; a call id not in flight resolves nothing.
Note that the Try Again handler rebuilds the file as
`new File([imageFile], imageFile.name, { type: imageFile.type })`, whose
name, type, and bytes equal those of `imageFile`, so in this value-level
model the retried file is `f` itself. -/
def step (e : Event) (s : AppState) : AppState :=
  match e with
  | .selectFiles files =>
      match files with
      | some (f :: _) =>
          effectBody f
            { cleanupEffect s with error := none, analysis := Json.null, imageFile := some f }
      | _ => s
  | .reset =>
      { cleanupEffect s with imageFile := none, imageUrl := none, analysis := Json.null,
                             error := none, isLoading := false }
  | .retry =>
      match s.imageFile with
      | some f => effectBody f { cleanupEffect s with imageFile := some f }
      | none => s
  | .resolve id resp =>
      match s.pending.lookup id with
      | some _ =>
          let s1 := { s with pending := s.pending.filter (fun p => p.fst != id) }
          match analyzeFoodImage resp with
          | .ok j => { s1 with analysis := j, isLoading := false }
          | .error e =>
              { s1 with error := some ("Failed to analyze the image. " ++ e.message),
                        isLoading := false }
      | none => s
  | .unmount =>
      { cleanupEffect s with imageFile := none, imageUrl := none }

/-- Run a sequence of events from the initial state. -/
def runTrace (es : List Event) : AppState :=
  es.foldl (fun s e => step e s) initState

/-- States reachable from the initial state by any event sequence. -/
inductive Reachable : AppState → Prop where
  | init : Reachable initState
  | next (e : Event) {s : AppState} : Reachable s → Reachable (step e s)

/-- The five views of `renderContent`. -/
inductive View where
  | start : View
  | loading : View
  | errorView : View
  | nonFood : View
  | result : View
deriving Repr, DecidableEq

/-- Views rendered by `renderContent` in a given state: the start screen when
no image file or no preview URL is set; otherwise the four independent
conditional blocks, in source order — spinner while `isLoading`, the error
box while `error` is truthy, the non-food box while `analysis` is truthy
with falsy `isFood`, and the result view while `analysis` is truthy with
truthy `isFood`. -/
def viewsShown (s : AppState) : List View :=
  if s.imageFile.isNone || s.imageUrl.isNone then [View.start]
  else
    (if s.isLoading then [View.loading] else []) ++
    (match s.error with | some _ => [View.errorView] | none => []) ++
    (if s.analysis.truthy && !(jsFieldTruthy s.analysis "isFood") then [View.nonFood] else []) ++
    (if s.analysis.truthy && jsFieldTruthy s.analysis "isFood" then [View.result] else [])

/-- C9: calling the file-selection handler with a null file list or with an
empty file list leaves the whole component state unchanged (in particular
all five state fields) and starts no analysis call. -/
theorem handleFileSelect_noop (s : AppState) :
    step (.selectFiles none) s = s ∧ step (.selectFiles (some [])) s = s :=
  ⟨rfl, rfl⟩

/-- C10: the block-reason check precedes the body parse, so a response
carrying a block reason fails with the blocked-request error — never with
the invalid-response error — regardless of the body. -/
theorem blockReason_checked_before_parse (resp : UpstreamResponse) (r : String)
    (hb : resp.blockReason = some r) :
    analyzeFoodImage resp = Except.error (.blocked (blockedMessage r)) ∧
      ∀ m, analyzeFoodImage resp ≠ Except.error (.malformed m) := by
  refine ⟨by simp [analyzeFoodImage, hb], fun m => ?_⟩
  simp [analyzeFoodImage, hb]

/-- C10 witness: a concrete blocked response whose body is not even valid
JSON still fails as blocked, not as malformed. -/
theorem blockReason_checked_before_parse_witness :
    analyzeFoodImage ⟨some "SAFETY", none⟩ =
        Except.error (.blocked (blockedMessage "SAFETY")) ∧
      ∀ m, analyzeFoodImage ⟨some "SAFETY", none⟩ ≠ Except.error (.malformed m) :=
  blockReason_checked_before_parse ⟨some "SAFETY", none⟩ "SAFETY" rfl

/-- C3: a response rejected with block reason `X` makes the analyze call fail
with a message containing `X` verbatim, and resolving that call drives the
controller to the failed state with an error message containing `X`
verbatim. -/
theorem blocked_reason_surfaced (resp : UpstreamResponse) (X : String)
    (s : AppState) (id : Nat) (f : File)
    (hb : resp.blockReason = some X) (hp : s.pending.lookup id = some f) :
    (∃ p q, analyzeFoodImage resp = Except.error (.blocked (p ++ X ++ q))) ∧
      (∃ p q, (step (.resolve id resp) s).error = some (p ++ X ++ q)) ∧
      (step (.resolve id resp) s).isLoading = false := by
  have ha : analyzeFoodImage resp = Except.error (.blocked (blockedMessage X)) := by
    simp [analyzeFoodImage, hb]
  refine ⟨⟨"Request was blocked due to: ", ". This may be due to safety settings.", ha⟩, ?_, ?_⟩
  · refine ⟨"Failed to analyze the image. " ++ "Request was blocked due to: ",
      ". This may be due to safety settings.", ?_⟩
    simp only [step, hp, ha, AnalyzeError.message, blockedMessage]
    rw [String.append_assoc, String.append_assoc, ← String.append_assoc]
  · simp [step, hp, ha]

/-- C3 witness: a concrete blocked response resolved against a concrete
in-flight call. -/
theorem blocked_reason_surfaced_witness :
    (∃ p q, analyzeFoodImage ⟨some "SAFETY", none⟩ =
        Except.error (.blocked (p ++ "SAFETY" ++ q))) ∧
      (∃ p q, (step (.resolve 0 ⟨some "SAFETY", none⟩)
          (step (.selectFiles (some [⟨"a.png", ['p'], [7]⟩])) initState)).error =
            some (p ++ "SAFETY" ++ q)) ∧
      (step (.resolve 0 ⟨some "SAFETY", none⟩)
          (step (.selectFiles (some [⟨"a.png", ['p'], [7]⟩])) initState)).isLoading = false :=
  blocked_reason_surfaced ⟨some "SAFETY", none⟩ "SAFETY"
    (step (.selectFiles (some [⟨"a.png", ['p'], [7]⟩])) initState) 0
    ⟨"a.png", ['p'], [7]⟩ rfl rfl

/-- C1 counterexample: the claim quantifies over bodies that are valid JSON
but omit required fields. The body `\x7b\x7d` (the empty JSON object) parses
successfully, so the analyze call does not fail: it returns the unvalidated
object, the controller keeps `error` null after resolution (a succeeded
state), stores an analysis missing every required field including `isFood`,
and renders the non-food success view rather than the error view. -/
theorem malformed_shape_not_rejected :
    analyzeFoodImage ⟨none, some (Json.obj [])⟩ = Except.ok (Json.obj []) ∧
      (Json.obj []).getField "isFood" = none ∧
      (runTrace [.selectFiles (some [⟨"car.png", ['p'], [3]⟩]),
        .resolve 0 ⟨none, some (Json.obj [])⟩]).error = none ∧
      (runTrace [.selectFiles (some [⟨"car.png", ['p'], [3]⟩]),
        .resolve 0 ⟨none, some (Json.obj [])⟩]).analysis = Json.obj [] ∧
      (runTrace [.selectFiles (some [⟨"car.png", ['p'], [3]⟩]),
        .resolve 0 ⟨none, some (Json.obj [])⟩]).isLoading = false ∧
      viewsShown (runTrace [.selectFiles (some [⟨"car.png", ['p'], [3]⟩]),
        .resolve 0 ⟨none, some (Json.obj [])⟩]) = [View.nonFood] :=
  ⟨rfl, rfl, rfl, rfl, rfl, rfl⟩

/-- C1 (amended): if the upstream body is not valid JSON the analyze call
fails with the malformed-response message and the controller reaches the
failed state (error set, loading cleared, analysis untouched); a body that
is valid JSON, however, is returned without shape validation, so a body
omitting required fields yields a succeeded state holding the partial
object. This theorem is the provable first half; the counterexample above
witnesses the second. -/
theorem invalid_json_reaches_failed (resp : UpstreamResponse) (s : AppState)
    (id : Nat) (f : File)
    (hb : resp.blockReason = none) (hj : resp.body = none)
    (hp : s.pending.lookup id = some f) :
    analyzeFoodImage resp = Except.error (.malformed malformedMessage) ∧
      (step (.resolve id resp) s).error =
        some ("Failed to analyze the image. " ++ malformedMessage) ∧
      (step (.resolve id resp) s).isLoading = false ∧
      (step (.resolve id resp) s).analysis = s.analysis := by
  have ha : analyzeFoodImage resp = Except.error (.malformed malformedMessage) := by
    simp [analyzeFoodImage, hb, hj]
  exact ⟨ha, by simp [step, hp, ha, AnalyzeError.message], by simp [step, hp, ha],
    by simp [step, hp, ha]⟩

/-- C1 witness: a concrete unparsable body resolved against a concrete
in-flight call. -/
theorem invalid_json_reaches_failed_witness :
    analyzeFoodImage ⟨none, none⟩ = Except.error (.malformed malformedMessage) ∧
      (step (.resolve 0 ⟨none, none⟩)
          (step (.selectFiles (some [⟨"b.png", ['p'], [1]⟩])) initState)).error =
        some ("Failed to analyze the image. " ++ malformedMessage) ∧
      (step (.resolve 0 ⟨none, none⟩)
          (step (.selectFiles (some [⟨"b.png", ['p'], [1]⟩])) initState)).isLoading = false ∧
      (step (.resolve 0 ⟨none, none⟩)
          (step (.selectFiles (some [⟨"b.png", ['p'], [1]⟩])) initState)).analysis =
        (step (.selectFiles (some [⟨"b.png", ['p'], [1]⟩])) initState).analysis :=
  invalid_json_reaches_failed ⟨none, none⟩
    (step (.selectFiles (some [⟨"b.png", ['p'], [1]⟩])) initState) 0
    ⟨"b.png", ['p'], [1]⟩ rfl rfl rfl

/-- C5: an upstream response that parses successfully with `isFood: false`
drives the controller to the succeeded state (analysis stored, no error,
loading cleared) and the presentation renders exactly the non-food view —
never the recipe/result view. -/
theorem notFood_is_success (s : AppState) (f : File) (fields : List (String × Json))
    (hp : s.pending = [])
    (hf : (Json.obj fields).getField "isFood" = some (Json.bool false)) :
    let final := step (.resolve s.nextCall ⟨none, some (Json.obj fields)⟩)
      (step (.selectFiles (some [f])) s)
    final.analysis = Json.obj fields ∧ final.error = none ∧ final.isLoading = false ∧
      viewsShown final = [View.nonFood] := by
  refine ⟨?_, ?_, ?_, ?_⟩ <;>
    simp [step, effectBody, cleanupEffect, analyzeFoodImage, viewsShown, jsFieldTruthy,
      Json.truthy, hp, hf]

/-- C5 witness: a concrete non-food response after a concrete selection. -/
theorem notFood_is_success_witness :
    let final := step (.resolve initState.nextCall
        ⟨none, some (Json.obj [("isFood", Json.bool false)])⟩)
      (step (.selectFiles (some [⟨"car.png", ['p'], [9]⟩])) initState)
    final.analysis = Json.obj [("isFood", Json.bool false)] ∧ final.error = none ∧
      final.isLoading = false ∧ viewsShown final = [View.nonFood] :=
  notFood_is_success initState ⟨"car.png", ['p'], [9]⟩ [("isFood", Json.bool false)]
    rfl rfl

/-- C8: clicking Try Again in the failed state re-issues a file with the same
name, declared mime type, and bytes as the selected file through the very
same path as a selection: the error is cleared, the state returns to
loading, and a fresh analysis call on that file becomes in-flight. -/
theorem retry_reissues_same_image (s : AppState) (f : File) (m : String)
    (hf : s.imageFile = some f) (_he : s.error = some m) :
    (∃ f2, (step .retry s).imageFile = some f2 ∧ f2.name = f.name ∧
        f2.type = f.type ∧ f2.bytes = f.bytes) ∧
      (step .retry s).error = none ∧
      (step .retry s).isLoading = true ∧
      (step .retry s).analysis = Json.null ∧
      (step .retry s).pending = s.pending ++ [(s.nextCall, f)] ∧
      step .retry s = step (.selectFiles (some [f])) s := by
  refine ⟨⟨f, ?_, rfl, rfl, rfl⟩, ?_, ?_, ?_, ?_, ?_⟩ <;>
    simp [step, hf, effectBody, cleanupEffect]

/-- C8 witness: retry from a concrete failed state. -/
theorem retry_reissues_same_image_witness :
    (∃ f2, (step .retry (step (.resolve 0 ⟨some "SAFETY", none⟩)
          (step (.selectFiles (some [⟨"a.png", ['p'], [7]⟩])) initState))).imageFile =
        some f2 ∧ f2.name = "a.png" ∧ f2.type = ['p'] ∧ f2.bytes = [7]) ∧
      (step .retry (step (.resolve 0 ⟨some "SAFETY", none⟩)
          (step (.selectFiles (some [⟨"a.png", ['p'], [7]⟩])) initState))).error = none ∧
      (step .retry (step (.resolve 0 ⟨some "SAFETY", none⟩)
          (step (.selectFiles (some [⟨"a.png", ['p'], [7]⟩])) initState))).isLoading = true ∧
      (step .retry (step (.resolve 0 ⟨some "SAFETY", none⟩)
          (step (.selectFiles (some [⟨"a.png", ['p'], [7]⟩])) initState))).analysis =
        Json.null ∧
      (step .retry (step (.resolve 0 ⟨some "SAFETY", none⟩)
          (step (.selectFiles (some [⟨"a.png", ['p'], [7]⟩])) initState))).pending =
        (step (.resolve 0 ⟨some "SAFETY", none⟩)
          (step (.selectFiles (some [⟨"a.png", ['p'], [7]⟩])) initState)).pending ++
          [((step (.resolve 0 ⟨some "SAFETY", none⟩)
            (step (.selectFiles (some [⟨"a.png", ['p'], [7]⟩])) initState)).nextCall,
            ⟨"a.png", ['p'], [7]⟩)] ∧
      step .retry (step (.resolve 0 ⟨some "SAFETY", none⟩)
          (step (.selectFiles (some [⟨"a.png", ['p'], [7]⟩])) initState)) =
        step (.selectFiles (some [⟨"a.png", ['p'], [7]⟩]))
          (step (.resolve 0 ⟨some "SAFETY", none⟩)
            (step (.selectFiles (some [⟨"a.png", ['p'], [7]⟩])) initState)) :=
  retry_reissues_same_image
    (step (.resolve 0 ⟨some "SAFETY", none⟩)
      (step (.selectFiles (some [⟨"a.png", ['p'], [7]⟩])) initState))
    ⟨"a.png", ['p'], [7]⟩
    ("Failed to analyze the image. " ++ blockedMessage "SAFETY") rfl rfl

/-- C2 counterexample: select image A, then select image B while A's call is
in flight; B's call resolves first, then A's stale call resolves. The final
analysis is A's result, not B's — the stale response overwrites the state
produced by the later request, refuting the claim at this concrete input. -/
theorem stale_response_overwrites :
    (runTrace [.selectFiles (some [⟨"a.png", ['p'], [1]⟩]),
        .selectFiles (some [⟨"b.png", ['p'], [2]⟩]),
        .resolve 1 ⟨none, some (Json.str "B-dish")⟩,
        .resolve 0 ⟨none, some (Json.str "A-dish")⟩]).analysis = Json.str "A-dish" ∧
      Json.str "A-dish" ≠ Json.str "B-dish" := by
  refine ⟨rfl, ?_⟩
  intro h
  injection h with h2
  exact absurd h2 (by decide)

/-- C2 (amended): with no currency check in the code, the final state is
derived only from B's outcome provided the stale call for A resolves before
B's call does (here with both calls succeeding): then the final state holds
B's analysis, no error, and loading cleared. When A's call resolves after
B's, the stale outcome overwrites B's, as the counterexample shows. -/
theorem later_request_wins_when_in_order (s : AppState) (A B : File) (jA jB : Json)
    (hp : s.pending = []) :
    let final := step (.resolve (s.nextCall + 1) ⟨none, some jB⟩)
      (step (.resolve s.nextCall ⟨none, some jA⟩)
        (step (.selectFiles (some [B])) (step (.selectFiles (some [A])) s)))
    final.analysis = jB ∧ final.error = none ∧ final.isLoading = false := by
  have hne : (s.nextCall + 1 != s.nextCall) = true := by
    simp [Nat.succ_ne_self]
  refine ⟨?_, ?_, ?_⟩ <;>
    simp [step, effectBody, cleanupEffect, analyzeFoodImage, hp, hne, List.lookup,
      List.filter]

/-- C2 witness: the in-order resolution of two concrete overlapping
requests ends in the later request's result. -/
theorem later_request_wins_when_in_order_witness :
    let final := step (.resolve (initState.nextCall + 1) ⟨none, some (Json.str "B-dish")⟩)
      (step (.resolve initState.nextCall ⟨none, some (Json.str "A-dish")⟩)
        (step (.selectFiles (some [⟨"b.png", ['p'], [2]⟩]))
          (step (.selectFiles (some [⟨"a.png", ['p'], [1]⟩])) initState)))
    final.analysis = Json.str "B-dish" ∧ final.error = none ∧ final.isLoading = false :=
  later_request_wins_when_in_order initState ⟨"a.png", ['p'], [1]⟩ ⟨"b.png", ['p'], [2]⟩
    (Json.str "A-dish") (Json.str "B-dish") rfl

/-- A live preview resource: an object URL that has been created but not
revoked. -/
def liveUrl (s : AppState) (u : Nat) : Prop := u < s.nextUrl ∧ u ∉ s.revoked

/-- Resource invariant of the preview URLs: no URL is revoked twice, revoked
URLs were created, the live URLs are exactly the one currently held in
`imageUrl`, and a preview URL is held exactly while an image file is. -/
def UrlInv (s : AppState) : Prop :=
  s.revoked.Nodup ∧
    (∀ u ∈ s.revoked, u < s.nextUrl) ∧
    (∀ u, liveUrl s u ↔ s.imageUrl = some u) ∧
    (s.imageFile.isSome = s.imageUrl.isSome)

/-- After the effect cleanup runs, every URL created so far is revoked, still
without duplicates and without inventing URLs. -/
theorem cleanupRevoked_covers (s : AppState) (h : UrlInv s) :
    (cleanupRevoked s).Nodup ∧ (∀ u ∈ cleanupRevoked s, u < s.nextUrl) ∧
      (∀ v, v < s.nextUrl → v ∈ cleanupRevoked s) := by
  obtain ⟨hnd, hlt, hlive, hfu⟩ := h
  unfold cleanupRevoked
  rcases hIF : s.imageFile with _ | f <;> rcases hIU : s.imageUrl with _ | u
  · refine ⟨hnd, hlt, fun v hv => ?_⟩
    by_contra hmem
    have := (hlive v).mp ⟨hv, hmem⟩
    simp [hIU] at this
  · rw [hIF, hIU] at hfu; simp at hfu
  · rw [hIF, hIU] at hfu; simp at hfu
  · have hu : liveUrl s u := (hlive u).mpr hIU
    refine ⟨List.Nodup.cons hu.2 hnd, ?_, fun v hv => ?_⟩
    · intro w hw
      rcases List.mem_cons.mp hw with hw | hw
      · exact hw ▸ hu.1
      · exact hlt w hw
    · rcases Decidable.em (v ∈ s.revoked) with hmem | hmem
      · exact List.mem_cons_of_mem _ hmem
      · have := (hlive v).mp ⟨hv, hmem⟩
        rw [hIU] at this
        simp only [Option.some.injEq] at this
        exact this ▸ List.mem_cons_self u s.revoked

/-- One step preserves the preview-resource invariant, whatever the event. -/
theorem urlInv_step (s : AppState) (e : Event) (h : UrlInv s) : UrlInv (step e s) := by
  have hcov := cleanupRevoked_covers s h
  obtain ⟨hnd, hlt, hlive, hfu⟩ := h
  obtain ⟨cnd, clt, ccov⟩ := hcov
  have hfresh : ∀ t : AppState, t.revoked = cleanupRevoked s → t.nextUrl = s.nextUrl + 1 →
      t.imageUrl = some s.nextUrl → t.imageFile.isSome = true → UrlInv t := by
    intro t h1 h2 h3 h4
    refine ⟨h1 ▸ cnd, ?_, ?_, ?_⟩
    · intro u hu
      rw [h1] at hu
      have := clt u hu
      omega
    · intro u
      constructor
      · rintro ⟨hu1, hu2⟩
        rw [h1] at hu2
        rw [h2] at hu1
        rw [h3]
        rcases Nat.lt_succ_iff_lt_or_eq.mp hu1 with hlt2 | heq
        · exact absurd (ccov u hlt2) hu2
        · simp [heq]
      · intro hu
        rw [h3] at hu
        simp only [Option.some.injEq] at hu
        subst hu
        refine ⟨by omega, ?_⟩
        rw [h1]
        intro hmem
        have := clt _ hmem
        omega
    · rw [h3, h4]; rfl
  have hclean : ∀ t : AppState, t.revoked = cleanupRevoked s → t.nextUrl = s.nextUrl →
      t.imageUrl = none → t.imageFile = none → UrlInv t := by
    intro t h1 h2 h3 h4
    refine ⟨h1 ▸ cnd, ?_, ?_, ?_⟩
    · intro u hu
      rw [h1] at hu
      rw [h2]
      exact clt u hu
    · intro u
      rw [h3]
      constructor
      · rintro ⟨hu1, hu2⟩
        rw [h1] at hu2
        rw [h2] at hu1
        exact absurd (ccov u hu1) hu2
      · intro hu; cases hu
    · rw [h3, h4]; rfl
  cases e with
  | selectFiles files =>
      match files with
      | none => exact ⟨hnd, hlt, hlive, hfu⟩
      | some [] => exact ⟨hnd, hlt, hlive, hfu⟩
      | some (f :: rest) => exact hfresh _ rfl rfl rfl rfl
  | reset => exact hclean _ rfl rfl rfl rfl
  | retry =>
      rcases hIF : s.imageFile with _ | f
      · have hid : step .retry s = s := by simp [step, hIF]
        rw [hid]
        exact ⟨hnd, hlt, hlive, hfu⟩
      · have : step .retry s = effectBody f { cleanupEffect s with imageFile := some f } := by
          simp [step, hIF]
        rw [this]
        exact hfresh _ rfl rfl rfl rfl
  | resolve id resp =>
      show UrlInv (step (.resolve id resp) s)
      simp only [step]
      rcases s.pending.lookup id with _ | f
      · exact ⟨hnd, hlt, hlive, hfu⟩
      · rcases analyzeFoodImage resp with e2 | j
        · exact ⟨hnd, hlt, hlive, hfu⟩
        · exact ⟨hnd, hlt, hlive, hfu⟩
  | unmount => exact hclean _ rfl rfl rfl rfl

/-- Every reachable state satisfies the preview-resource invariant. -/
theorem reachable_urlInv (s : AppState) (h : Reachable s) : UrlInv s := by
  induction h with
  | init =>
      refine ⟨List.nodup_nil, ?_, ?_, rfl⟩
      · intro u hu
        exact absurd hu (List.not_mem_nil u)
      · intro u
        constructor
        · rintro ⟨h1, -⟩
          exact absurd h1 (Nat.not_lt_zero u)
        · intro h2
          exact Option.noConfusion h2
  | next e hs ih => exact urlInv_step _ e ih

/-- C7: from any reachable state, reset returns the controller to the idle
state (all five fields cleared) and revokes the currently held preview URL
exactly once; at any reachable moment at most one preview URL is live, and
selecting a new image also revokes the previously held URL exactly once,
leaving it dead. -/
theorem reset_releases_preview_once (s : AppState) (h : Reachable s) :
    ((step .reset s).imageFile = none ∧ (step .reset s).imageUrl = none ∧
        (step .reset s).analysis = Json.null ∧ (step .reset s).error = none ∧
        (step .reset s).isLoading = false) ∧
      (∀ u, s.imageUrl = some u → (step .reset s).revoked.count u = 1) ∧
      (∀ u v, liveUrl s u → liveUrl s v → u = v) ∧
      (∀ u f, s.imageUrl = some u →
        (step (.selectFiles (some [f])) s).revoked.count u = 1 ∧
          ¬ liveUrl (step (.selectFiles (some [f])) s) u) := by
  obtain ⟨hnd, hlt, hlive, hfu⟩ := reachable_urlInv s h
  have hcount : ∀ u, s.imageUrl = some u → (cleanupRevoked s).count u = 1 := by
    intro u hu
    have hl : liveUrl s u := (hlive u).mpr hu
    have hf2 : s.imageFile.isSome = true := by
      rw [hfu, hu]; rfl
    rcases hIF : s.imageFile with _ | f
    · rw [hIF] at hf2; cases hf2
    · unfold cleanupRevoked
      rw [hIF, hu]
      simp [List.count_cons, List.count_eq_zero.mpr hl.2]
  refine ⟨⟨rfl, rfl, rfl, rfl, rfl⟩, fun u hu => hcount u hu, ?_, fun u f hu => ?_⟩
  · intro u v hu hv
    have h1 := (hlive u).mp hu
    have h2 := (hlive v).mp hv
    exact Option.some.inj (h1.symm.trans h2)
  · refine ⟨hcount u hu, ?_⟩
    rintro ⟨-, hmem⟩
    have : u ∈ cleanupRevoked s := by
      have := hcount u hu
      by_contra hn
      rw [List.count_eq_zero.mpr hn] at this
      cases this
    exact hmem this

/-- C7 witness: in the concrete reachable state after selecting one image,
reset clears the state and revokes URL 0 exactly once, at most one URL is
live, and selecting another image also revokes URL 0 exactly once. -/
theorem reset_releases_preview_once_witness :
    ((step .reset (step (.selectFiles (some [⟨"a.png", ['p'], [7]⟩])) initState)).imageFile =
          none ∧
        (step .reset (step (.selectFiles (some [⟨"a.png", ['p'], [7]⟩]))
          initState)).imageUrl = none ∧
        (step .reset (step (.selectFiles (some [⟨"a.png", ['p'], [7]⟩]))
          initState)).analysis = Json.null ∧
        (step .reset (step (.selectFiles (some [⟨"a.png", ['p'], [7]⟩]))
          initState)).error = none ∧
        (step .reset (step (.selectFiles (some [⟨"a.png", ['p'], [7]⟩]))
          initState)).isLoading = false) ∧
      (∀ u, (step (.selectFiles (some [⟨"a.png", ['p'], [7]⟩])) initState).imageUrl = some u →
        (step .reset (step (.selectFiles (some [⟨"a.png", ['p'], [7]⟩]))
          initState)).revoked.count u = 1) ∧
      (∀ u v, liveUrl (step (.selectFiles (some [⟨"a.png", ['p'], [7]⟩])) initState) u →
        liveUrl (step (.selectFiles (some [⟨"a.png", ['p'], [7]⟩])) initState) v → u = v) ∧
      (∀ u f, (step (.selectFiles (some [⟨"a.png", ['p'], [7]⟩])) initState).imageUrl =
          some u →
        (step (.selectFiles (some [f]))
            (step (.selectFiles (some [⟨"a.png", ['p'], [7]⟩])) initState)).revoked.count u =
            1 ∧
          ¬ liveUrl (step (.selectFiles (some [f]))
            (step (.selectFiles (some [⟨"a.png", ['p'], [7]⟩])) initState)) u) :=
  reset_releases_preview_once (step (.selectFiles (some [⟨"a.png", ['p'], [7]⟩])) initState)
    (Reachable.next _ Reachable.init)

/-- A successful analyze outcome pins down the response: no block reason and
a successfully parsed body equal to the returned value. -/
theorem analyzeFoodImage_ok (resp : UpstreamResponse) (j : Json)
    (h : analyzeFoodImage resp = Except.ok j) :
    resp.blockReason = none ∧ resp.body = some j := by
  unfold analyzeFoodImage at h
  rcases hb : resp.blockReason with _ | r
  · rw [hb] at h
    rcases hj : resp.body with _ | j2 <;> rw [hj] at h <;> simp_all
  · rw [hb] at h
    simp at h

/-- Single-in-flight discipline assumed by the spec for the exactly-one-view
property: no new submission (selection or retry) while a call is in flight,
and successful upstream bodies conform to the schema, i.e. are JSON
objects. All other events are unrestricted. -/
def Disciplined (s : AppState) : Event → Prop
  | .selectFiles (some (_ :: _)) => s.pending = []
  | .retry => s.pending = []
  | .resolve _ resp =>
      resp.blockReason = none → ∀ j, resp.body = some j → ∃ fs, j = Json.obj fs
  | _ => True

/-- States reachable from the initial state under the single-in-flight
discipline. -/
inductive DReachable : AppState → Prop where
  | init : DReachable initState
  | next {s : AppState} (e : Event) : DReachable s → Disciplined s e → DReachable (step e s)

/-- Exactly one of the three image-present view conditions holds: loading,
error, or a truthy analysis. -/
def exactlyOneCond (s : AppState) : Prop :=
  (s.isLoading = true ∧ s.error = none ∧ s.analysis.truthy = false) ∨
    (s.isLoading = false ∧ (∃ m, s.error = some m) ∧ s.analysis.truthy = false) ∨
    (s.isLoading = false ∧ s.error = none ∧ s.analysis.truthy = true)

/-- Inductive render invariant under the single-in-flight discipline. -/
def RenderInv (s : AppState) : Prop :=
  s.pending.length ≤ 1 ∧
    (s.pending ≠ [] → s.imageFile.isSome = true →
      s.isLoading = true ∧ s.error = none ∧ s.analysis = Json.null) ∧
    (s.imageFile.isSome = true → exactlyOneCond s)

/-- A disciplined step preserves the render invariant. -/
theorem renderInv_step (s : AppState) (e : Event) (hd : Disciplined s e)
    (h : RenderInv s) : RenderInv (step e s) := by
  obtain ⟨h1, h2, h3⟩ := h
  cases e with
  | selectFiles files =>
      match files with
      | none => exact ⟨h1, h2, h3⟩
      | some [] => exact ⟨h1, h2, h3⟩
      | some (f :: rest) =>
          have hp : s.pending = [] := hd
          refine ⟨?_, ?_, ?_⟩
          · show (s.pending ++ [(s.nextCall, f)]).length ≤ 1
            rw [hp]
            rfl
          · intro _ _
            exact ⟨rfl, rfl, rfl⟩
          · intro _
            exact Or.inl ⟨rfl, rfl, rfl⟩
  | reset =>
      refine ⟨h1, ?_, ?_⟩
      · intro _ hfs
        exact absurd hfs (by simp [step])
      · intro hfs
        exact absurd hfs (by simp [step])
  | retry =>
      have hp : s.pending = [] := hd
      rcases hIF : s.imageFile with _ | f
      · have hid : step .retry s = s := by simp [step, hIF]
        rw [hid]
        exact ⟨h1, h2, h3⟩
      · have hid : step .retry s = effectBody f { cleanupEffect s with imageFile := some f } := by
          simp [step, hIF]
        rw [hid]
        refine ⟨?_, ?_, ?_⟩
        · show (s.pending ++ [(s.nextCall, f)]).length ≤ 1
          rw [hp]
          rfl
        · intro _ _
          exact ⟨rfl, rfl, rfl⟩
        · intro _
          exact Or.inl ⟨rfl, rfl, rfl⟩
  | resolve id resp =>
      rcases hl : s.pending.lookup id with _ | f
      · have hid : step (.resolve id resp) s = s := by simp [step, hl]
        rw [hid]
        exact ⟨h1, h2, h3⟩
      · have hne : s.pending ≠ [] := by
          intro hnil
          rw [hnil] at hl
          exact Option.noConfusion hl
        have hflt : (s.pending.filter (fun p => p.fst != id)).length ≤ 1 :=
          le_trans (List.length_filter_le _ _) h1
        have hsingle : s.pending.filter (fun p => p.fst != id) = [] := by
          rcases hp : s.pending with _ | ⟨⟨k, v⟩, rest⟩
          · rfl
          · have hrest : rest = [] := by
              rw [hp] at h1
              simp only [List.length_cons] at h1
              exact List.length_eq_zero.mp (by omega)
            subst hrest
            rw [hp] at hl
            by_cases hk : (id == k) = true
            · have hk2 : id = k := by simpa using hk
              subst hk2
              simp [List.filter]
            · have hkf : (id == k) = false := by simpa using hk
              simp [List.lookup, hkf] at hl
        rcases ha : analyzeFoodImage resp with e2 | j
        · have hid : step (.resolve id resp) s =
              { s with pending := s.pending.filter (fun p => p.fst != id),
                       error := some ("Failed to analyze the image. " ++ e2.message),
                       isLoading := false } := by
            simp [step, hl, ha]
          rw [hid]
          rcases hIF : s.imageFile with _ | f0
          · exact ⟨hflt, fun _ hfs => absurd hfs (by simp), fun hfs => absurd hfs (by simp [hIF])⟩
          · obtain ⟨-, -, hana⟩ := h2 hne (by rw [hIF]; rfl)
            refine ⟨hflt, fun hne2 _ => absurd hsingle hne2, ?_⟩
            intro _
            exact Or.inr (Or.inl ⟨rfl, ⟨_, rfl⟩, by rw [hana]; rfl⟩)
        · obtain ⟨hbr, hbody⟩ := analyzeFoodImage_ok resp j ha
          have hid : step (.resolve id resp) s =
              { s with pending := s.pending.filter (fun p => p.fst != id),
                       analysis := j,
                       isLoading := false } := by
            simp [step, hl, ha]
          rw [hid]
          rcases hIF : s.imageFile with _ | f0
          · exact ⟨hflt, fun _ hfs => absurd hfs (by simp), fun hfs => absurd hfs (by simp [hIF])⟩
          · obtain ⟨-, herr, -⟩ := h2 hne (by rw [hIF]; rfl)
            obtain ⟨fs, hfs⟩ := hd hbr j hbody
            refine ⟨hflt, fun hne2 _ => absurd hsingle hne2, ?_⟩
            intro _
            exact Or.inr (Or.inr ⟨rfl, herr, by rw [hfs]; rfl⟩)
  | unmount =>
      refine ⟨h1, ?_, ?_⟩
      · intro _ hfs
        exact absurd hfs (by simp [step])
      · intro hfs
        exact absurd hfs (by simp [step])

/-- Every disciplined-reachable state satisfies the render invariant. -/
theorem dreachable_renderInv (s : AppState) (h : DReachable s) : RenderInv s := by
  induction h with
  | init =>
      refine ⟨by simp [initState], fun hne _ => absurd rfl hne, fun hfs => ?_⟩
      exact absurd hfs (by simp [initState])
  | next e hs hd ih => exact renderInv_step _ e hd ih

/-- C6 counterexample: the render conditionals are independent, so the claim
fails on a reachable state: with two overlapping requests, the later one
succeeding first and the stale one then failing, the final state renders the
error view and the result view simultaneously — two views, not exactly one. -/
theorem two_views_rendered_simultaneously :
    viewsShown (runTrace [.selectFiles (some [⟨"a.png", ['p'], [1]⟩]),
        .selectFiles (some [⟨"b.png", ['p'], [2]⟩]),
        .resolve 1 ⟨none, some (Json.obj [("isFood", Json.bool true)])⟩,
        .resolve 0 ⟨some "SAFETY", none⟩]) = [View.errorView, View.result] ∧
      (viewsShown (runTrace [.selectFiles (some [⟨"a.png", ['p'], [1]⟩]),
        .selectFiles (some [⟨"b.png", ['p'], [2]⟩]),
        .resolve 1 ⟨none, some (Json.obj [("isFood", Json.bool true)])⟩,
        .resolve 0 ⟨some "SAFETY", none⟩])).length = 2 :=
  ⟨rfl, rfl⟩

/-- C6 (amended): the presentation is a pure function of the component state
(`viewsShown`), and under the single-in-flight discipline — no new
submission while a call is in flight, successful bodies conforming to the
schema — every reachable state renders exactly one of the five views. With
overlapping in-flight calls two views can render at once, as the
counterexample shows. -/
theorem exactly_one_view_disciplined (s : AppState) (h : DReachable s) :
    (viewsShown s).length = 1 := by
  obtain ⟨-, -, h3⟩ := dreachable_renderInv s h
  unfold viewsShown
  rcases hIF : s.imageFile with _ | f
  · simp
  · rcases hIU : s.imageUrl with _ | u
    · simp
    · have hone := h3 (by rw [hIF]; rfl)
      rcases hone with ⟨hl, he, hana⟩ | ⟨hl, ⟨m, he⟩, hana⟩ | ⟨hl, he, hana⟩
      · simp [hl, he, hana]
      · simp [hl, he, hana]
      · by_cases hfood : jsFieldTruthy s.analysis "isFood" = true
        · simp [hl, he, hana, hfood]
        · simp [hl, he, hana, Bool.of_not_eq_true hfood]

/-- C6 witness: a concrete disciplined run — one selection, then its call
succeeding with a schema-conforming body — renders exactly one view. -/
theorem exactly_one_view_disciplined_witness :
    (viewsShown (step (.resolve 0 ⟨none, some (Json.obj [("isFood", Json.bool true)])⟩)
      (step (.selectFiles (some [⟨"a.png", ['p'], [1]⟩])) initState))).length = 1 :=
  exactly_one_view_disciplined _
    (DReachable.next _ (DReachable.next _ DReachable.init rfl)
      (fun _ _j hj => ⟨[("isFood", Json.bool true)], (Option.some.inj hj).symm⟩))

/-- Decoding inverts encoding on each base64 alphabet index. -/
theorem b64Index_b64Char : ∀ n < 64, b64Index (b64Char n) = n := by decide

/-- Base64 alphabet characters are neither the padding sign nor a comma. -/
theorem b64Char_ne_pad_comma : ∀ n < 64, b64Char n ≠ '=' ∧ b64Char n ≠ ',' := by decide

/-- A base64 encoding of bytes contains no comma, so the data-URL split
leaves it intact. -/
theorem comma_not_in_base64Encode : ∀ l : List Nat, (∀ b ∈ l, b < 256) →
    ',' ∉ base64Encode l
  | [], _ => by simp [base64Encode]
  | [a], h => by
      have ha : a < 256 := h a (by simp)
      have h1 := (b64Char_ne_pad_comma (a / 4) (by omega)).2
      have h2 := (b64Char_ne_pad_comma (a % 4 * 16) (by omega)).2
      intro hmem
      simp only [base64Encode, List.mem_cons, List.not_mem_nil, or_false] at hmem
      rcases hmem with hx | hx | hx | hx
      · exact h1 hx.symm
      · exact h2 hx.symm
      · exact absurd hx (by decide)
      · exact absurd hx (by decide)
  | [a, b], h => by
      have ha : a < 256 := h a (by simp)
      have hb : b < 256 := h b (by simp)
      have h1 := (b64Char_ne_pad_comma (a / 4) (by omega)).2
      have h2 := (b64Char_ne_pad_comma (a % 4 * 16 + b / 16) (by omega)).2
      have h3 := (b64Char_ne_pad_comma (b % 16 * 4) (by omega)).2
      intro hmem
      simp only [base64Encode, List.mem_cons, List.not_mem_nil, or_false] at hmem
      rcases hmem with hx | hx | hx | hx
      · exact h1 hx.symm
      · exact h2 hx.symm
      · exact h3 hx.symm
      · exact absurd hx (by decide)
  | a :: b :: c :: rest, h => by
      have ha : a < 256 := h a (by simp)
      have hb : b < 256 := h b (by simp)
      have hc : c < 256 := h c (by simp)
      have ih := comma_not_in_base64Encode rest
        (fun x hx => h x (by simp [List.mem_cons] at hx ⊢; tauto))
      have h1 := (b64Char_ne_pad_comma (a / 4) (by omega)).2
      have h2 := (b64Char_ne_pad_comma (a % 4 * 16 + b / 16) (by omega)).2
      have h3 := (b64Char_ne_pad_comma (b % 16 * 4 + c / 64) (by omega)).2
      have h4 := (b64Char_ne_pad_comma (c % 64) (by omega)).2
      intro hmem
      simp only [base64Encode, List.mem_cons] at hmem
      rcases hmem with hx | hx | hx | hx | hx
      · exact h1 hx.symm
      · exact h2 hx.symm
      · exact h3 hx.symm
      · exact h4 hx.symm
      · exact ih hx

/-- Base64 decoding inverts base64 encoding on byte sequences. -/
theorem base64_roundtrip : ∀ l : List Nat, (∀ b ∈ l, b < 256) →
    base64Decode (base64Encode l) = l
  | [], _ => rfl
  | [a], h => by
      have ha : a < 256 := h a (by simp)
      have e1 := b64Index_b64Char (a / 4) (by omega)
      have e2 := b64Index_b64Char (a % 4 * 16) (by omega)
      show base64Decode [b64Char (a / 4), b64Char (a % 4 * 16), '=', '='] = [a]
      rw [base64Decode, if_pos rfl]
      have : b64Index (b64Char (a / 4)) * 4 + b64Index (b64Char (a % 4 * 16)) / 16 = a := by
        rw [e1, e2]; omega
      rw [this]
  | [a, b], h => by
      have ha : a < 256 := h a (by simp)
      have hb : b < 256 := h b (by simp)
      have e1 := b64Index_b64Char (a / 4) (by omega)
      have e2 := b64Index_b64Char (a % 4 * 16 + b / 16) (by omega)
      have e3 := b64Index_b64Char (b % 16 * 4) (by omega)
      have n3 := (b64Char_ne_pad_comma (b % 16 * 4) (by omega)).1
      show base64Decode [b64Char (a / 4), b64Char (a % 4 * 16 + b / 16),
        b64Char (b % 16 * 4), '='] = [a, b]
      rw [base64Decode, if_neg n3, if_pos rfl]
      have hv1 : b64Index (b64Char (a / 4)) * 4 +
          b64Index (b64Char (a % 4 * 16 + b / 16)) / 16 = a := by
        rw [e1, e2]; omega
      have hv2 : b64Index (b64Char (a % 4 * 16 + b / 16)) % 16 * 16 +
          b64Index (b64Char (b % 16 * 4)) / 4 = b := by
        rw [e2, e3]; omega
      rw [hv1, hv2]
  | a :: b :: c :: rest, h => by
      have ha : a < 256 := h a (by simp)
      have hb : b < 256 := h b (by simp)
      have hc : c < 256 := h c (by simp)
      have ih := base64_roundtrip rest
        (fun x hx => h x (by simp [List.mem_cons] at hx ⊢; tauto))
      have e1 := b64Index_b64Char (a / 4) (by omega)
      have e2 := b64Index_b64Char (a % 4 * 16 + b / 16) (by omega)
      have e3 := b64Index_b64Char (b % 16 * 4 + c / 64) (by omega)
      have e4 := b64Index_b64Char (c % 64) (by omega)
      have n3 := (b64Char_ne_pad_comma (b % 16 * 4 + c / 64) (by omega)).1
      have n4 := (b64Char_ne_pad_comma (c % 64) (by omega)).1
      show base64Decode (b64Char (a / 4) :: b64Char (a % 4 * 16 + b / 16) ::
        b64Char (b % 16 * 4 + c / 64) :: b64Char (c % 64) ::
        base64Encode rest) = a :: b :: c :: rest
      rw [base64Decode, if_neg n3, if_neg n4]
      have hv1 : b64Index (b64Char (a / 4)) * 4 +
          b64Index (b64Char (a % 4 * 16 + b / 16)) / 16 = a := by
        rw [e1, e2]; omega
      have hv2 : b64Index (b64Char (a % 4 * 16 + b / 16)) % 16 * 16 +
          b64Index (b64Char (b % 16 * 4 + c / 64)) / 4 = b := by
        rw [e2, e3]; omega
      have hv3 : b64Index (b64Char (b % 16 * 4 + c / 64)) % 4 * 64 +
          b64Index (b64Char (c % 64)) = c := by
        rw [e3, e4]; omega
      rw [hv1, hv2, hv3, ih]

/-- A comma-free character list splits into itself alone. -/
theorem splitComma_no_comma : ∀ l : List Char, ',' ∉ l → splitComma l = [l]
  | [], _ => rfl
  | c :: rest, h => by
      have hc : ¬ c = ',' := fun hch => h (by simp [hch])
      have ih := splitComma_no_comma rest (fun hm => h (List.mem_cons_of_mem _ hm))
      simp only [splitComma, if_neg hc, ih]

/-- Splitting at the first comma of `xs ++ ',' :: ys` when `xs` is
comma-free yields `xs` and then the split of `ys`. -/
theorem splitComma_append : ∀ xs ys : List Char, ',' ∉ xs →
    splitComma (xs ++ ',' :: ys) = xs :: splitComma ys
  | [], ys, _ => by simp [splitComma]
  | c :: rest, ys, h => by
      have hc : ¬ c = ',' := fun hch => h (by simp [hch])
      have ih := splitComma_append rest ys (fun hm => h (List.mem_cons_of_mem _ hm))
      simp only [List.cons_append, splitComma, if_neg hc]
      rw [show rest.append (',' :: ys) = rest ++ ',' :: ys from rfl, ih]

/-- Lazy `takeWhile` up to the first semicolon returns the semicolon-free
prefix. -/
theorem takeWhile_until_semi : ∀ xs ys : List Char, ';' ∉ xs →
    (xs ++ ';' :: ys).takeWhile (fun c => c ≠ ';') = xs
  | [], ys, _ => by simp [List.takeWhile]
  | c :: rest, ys, h => by
      have hc : ¬ c = ';' := fun hch => h (by simp [hch])
      have ih := takeWhile_until_semi rest ys (fun hm => h (List.mem_cons_of_mem _ hm))
      rw [List.cons_append, List.takeWhile_cons, if_pos (by simpa using hc), ih]

/-- C4: for a file whose read yields a well-formed data URL (non-empty
declared mime type containing neither comma nor semicolon, byte values below
256), `fileToPart` succeeds, its `mimeType` equals the file's declared type,
and its base64 payload decodes back to exactly the original bytes. -/
theorem fileToPart_roundtrip (f : File)
    (hne : f.type ≠ []) (hcomma : ',' ∉ f.type) (hsemi : ';' ∉ f.type)
    (hbytes : ∀ b ∈ f.bytes, b < 256) :
    fileToPart f = Except.ok { mimeType := f.type, data := base64Encode f.bytes } ∧
      base64Decode (base64Encode f.bytes) = f.bytes := by
  refine ⟨?_, base64_roundtrip f.bytes hbytes⟩
  have hx : readAsDataURL f =
      ('d' :: 'a' :: 't' :: 'a' :: ':' ::
        (f.type ++ (';' :: ['b', 'a', 's', 'e', '6', '4']))) ++
        ',' :: base64Encode f.bytes := by
    simp [readAsDataURL, List.append_assoc]
  have hnc : ',' ∉ ('d' :: 'a' :: 't' :: 'a' :: ':' ::
      (f.type ++ (';' :: ['b', 'a', 's', 'e', '6', '4']))) := by
    intro hm
    simp only [List.mem_cons, List.mem_append] at hm
    rcases hm with h | h | h | h | h | h | h
    · exact absurd h (by decide)
    · exact absurd h (by decide)
    · exact absurd h (by decide)
    · exact absurd h (by decide)
    · exact absurd h (by decide)
    · exact hcomma h
    · exact absurd h (by decide)
  have hsplit : splitComma (readAsDataURL f) =
      [('d' :: 'a' :: 't' :: 'a' :: ':' ::
          (f.type ++ (';' :: ['b', 'a', 's', 'e', '6', '4']))),
        base64Encode f.bytes] := by
    rw [hx, splitComma_append _ _ hnc,
      splitComma_no_comma _ (comma_not_in_base64Encode f.bytes hbytes)]
  have hdrop : ('d' :: 'a' :: 't' :: 'a' :: ':' ::
      (f.type ++ (';' :: ['b', 'a', 's', 'e', '6', '4']))).dropWhile (fun c => c ≠ ':') =
      ':' :: (f.type ++ (';' :: ['b', 'a', 's', 'e', '6', '4'])) := by
    simp [List.dropWhile]
  have hany : (f.type ++ (';' :: ['b', 'a', 's', 'e', '6', '4'])).any
      (fun c => c = ';') = true := by
    simp
  have hregex : regexMimeMatch ('d' :: 'a' :: 't' :: 'a' :: ':' ::
      (f.type ++ (';' :: ['b', 'a', 's', 'e', '6', '4']))) = some f.type := by
    unfold regexMimeMatch
    rw [hdrop]
    show (if (f.type ++ (';' :: ['b', 'a', 's', 'e', '6', '4'])).any (fun c => c = ';')
        then some ((f.type ++ (';' :: ['b', 'a', 's', 'e', '6', '4'])).takeWhile
          (fun c => c ≠ ';'))
        else none) = some f.type
    rw [hany, if_pos rfl, takeWhile_until_semi _ _ hsemi]
  have hempty : f.type.isEmpty = false := by
    rcases hty : f.type with _ | ⟨c, rest⟩
    · exact absurd hty hne
    · rfl
  unfold fileToPart
  rw [hsplit]
  show ((match regexMimeMatch ('d' :: 'a' :: 't' :: 'a' :: ':' ::
      (f.type ++ (';' :: ['b', 'a', 's', 'e', '6', '4']))) with
    | none => Except.error "Could not parse MIME type from data URL"
    | some mime =>
        if mime.isEmpty then Except.error "Could not parse MIME type from data URL"
        else Except.ok (InlineData.mk mime (base64Encode f.bytes))) :
      Except String InlineData) =
    Except.ok (InlineData.mk f.type (base64Encode f.bytes))
  rw [hregex]
  show (if f.type.isEmpty then
        (Except.error "Could not parse MIME type from data URL" : Except String InlineData)
      else Except.ok (InlineData.mk f.type (base64Encode f.bytes))) =
    Except.ok (InlineData.mk f.type (base64Encode f.bytes))
  rw [hempty]
  rfl

/-- C4 witness: a concrete PNG-typed file round-trips through `fileToPart`. -/
theorem fileToPart_roundtrip_witness :
    fileToPart ⟨"img.png", ['i', 'm', 'a', 'g', 'e', '/', 'p', 'n', 'g'], [137, 80, 78]⟩ =
        Except.ok (InlineData.mk ['i', 'm', 'a', 'g', 'e', '/', 'p', 'n', 'g']
          (base64Encode [137, 80, 78])) ∧
      base64Decode (base64Encode [137, 80, 78]) = [137, 80, 78] :=
  fileToPart_roundtrip ⟨"img.png", ['i', 'm', 'a', 'g', 'e', '/', 'p', 'n', 'g'],
    [137, 80, 78]⟩ (by decide) (by decide) (by decide) (by decide)

end FoodSnap
